import Mathlib

/-!
Verification of the workflow orchestration engine specified for the
banking proposal generator repository.

The repository ships a declarative AWS Step Functions state-machine
definition (stepfunctions/workflow.json, deployed by
infrastructure/lib/banking-proposal-stack.ts with a 30-minute execution
timeout).  The state graph below is a direct embedding of that JSON
definition.  The interpreter, definition loader, predicate evaluator and
retry/catch policy engine are the subsystem the specification describes;
those components are modelled from the specification's own component
design (sections 3, 4.1-4.6 and 7), since their executable code is the
managed Step Functions service rather than a file of the repository.
-/

/-- JSON-like values threaded through an execution (section 3 Document:
strings, numbers, booleans, nested mappings, sequences). -/
inductive JValue where
  | null
  | str (s : String)
  | num (n : Int)
  | bool (b : Bool)
  | obj (fields : List (String × JValue))
  | arr (items : List JValue)

/-- Fields of a document value; non-objects have no fields. -/
def fieldsOf : JValue → List (String × JValue)
  | .obj fs => fs
  | _ => []

/-- Modelled from the spec: `Document.get(path)` (section 4.2); a dotted
path such as `$.validation_result.is_valid` is the segment list
`["validation_result", "is_valid"]`; a missing path yields `none`. -/
def getPath : List String → JValue → Option JValue
  | [], v => some v
  | k :: ks, .obj fs =>
    match fs.lookup k with
    | some w => getPath ks w
    | none => none
  | _ :: _, _ => none

/-- Replace the binding of a key in a field list, appending it if absent. -/
def replaceField : List (String × JValue) → String → JValue → List (String × JValue)
  | [], k, v => [(k, v)]
  | (k', v') :: rest, k, v =>
    if k == k' then (k, v) :: rest else (k', v') :: replaceField rest k v

/-- Nested singleton objects along a path, ending in the given value. -/
def buildNested : List String → JValue → JValue
  | [], v => v
  | k :: ks, v => .obj [(k, buildNested ks v)]

/-- Modelled from the spec: `Document.withSet(path, value)` (section 4.2);
copy-on-write insertion at exactly one point (`resultPath` semantics of
section 3). -/
def setPath : List String → JValue → JValue → JValue
  | [], newV, _ => newV
  | k :: ks, newV, d =>
    match (fieldsOf d).lookup k with
    | some old => .obj (replaceField (fieldsOf d) k (setPath ks newV old))
    | none => .obj (fieldsOf d ++ [(k, buildNested ks newV)])

/-- Modelled from the spec: branch predicates of the Predicate Evaluator
(section 4.2: string equality, boolean equality, numeric comparison,
existence check), mirroring the `Variable`/`StringEquals`/`BooleanEquals`
fields of the workflow definition. -/
inductive Predicate where
  | stringEquals (p : List String) (value : String)
  | booleanEquals (p : List String) (value : Bool)
  | numericEquals (p : List String) (value : Int)
  | isPresent (p : List String)

/-- Modelled from the spec: predicate evaluation against the current
Document; a missing path is treated as a non-matching rule (section 7,
`PredicateError`). -/
def evalPred (d : JValue) : Predicate → Bool
  | .stringEquals p c =>
    match getPath p d with
    | some (.str s) => s == c
    | _ => false
  | .booleanEquals p c =>
    match getPath p d with
    | some (.bool b) => b == c
    | _ => false
  | .numericEquals p c =>
    match getPath p d with
    | some (.num n) => n == c
    | _ => false
  | .isPresent p => (getPath p d).isSome

/-- One rule of a Choice state: a predicate and the `Next` target. -/
structure ChoiceRule where
  pred : Predicate
  next : String

/-- Modelled from the spec: Choice evaluation returns the `next` of the
first rule (in authored order) whose predicate matches, and the
`Default` when no rule matches (section 4.2, first-match-wins). -/
def choiceTarget (rules : List ChoiceRule) (dflt : Option String) (d : JValue) :
    Option String :=
  match rules with
  | [] => dflt
  | r :: rest => if evalPred d r.pred then some r.next else choiceTarget rest dflt d

/-- A task parameter is either a literal or a reference into the Document
(the `key.$ : $.path` template form of the workflow definition). -/
inductive ParamSpec where
  | lit (v : JValue)
  | path (p : List String)

/-- Modelled from the spec: render `Parameters` against the current
Document by path substitution (section 4.5, Task case). -/
def renderParams (d : JValue) (ps : List (String × ParamSpec)) : JValue :=
  .obj (ps.map fun e => (e.1,
    match e.2 with
    | .lit v => v
    | .path p => (getPath p d).getD .null))

/-- RetryRule of section 3. -/
structure RetryRule where
  errorCodes : List String
  maxAttempts : Nat
  backoffBaseMs : Nat
  backoffMultiplier : Nat

/-- CatchRule of section 3. -/
structure CatchRule where
  errorCodes : List String
  next : String
  resultPath : List String

/-- StateNode of section 3: tagged union over Task, Choice, Succeed, Fail,
mirroring the `Type` field of the workflow definition. -/
inductive StateNode where
  | task (resource : String) (parameters : List (String × ParamSpec))
      (resultPath : List String) (retryRules : List RetryRule)
      (catchRules : List CatchRule) (next : String)
  | choice (rules : List ChoiceRule) (dflt : Option String)
  | succeed
  | fail (errorCode : String) (cause : String)

/-- StateGraph of section 3: a start name and a name-to-node mapping. -/
structure StateGraph where
  startAt : String
  states : List (String × StateNode)

/-- Look a state up by name. -/
def lookupState (g : StateGraph) (s : String) : Option StateNode :=
  g.states.lookup s

/-- All transition targets a node can statically reach in one step:
`Next`, every `Choices[].Next`, the `Default`, and every catch target. -/
def succStates : StateNode → List String
  | .task _ _ _ _ cs nxt => nxt :: cs.map CatchRule.next
  | .choice rules dflt => rules.map ChoiceRule.next ++ dflt.toList
  | .succeed => []
  | .fail _ _ => []

/-! ## The reference workflow definition (stepfunctions/workflow.json)

Each state below is a direct transcription of the correspondingly named
state of `src`'s workflow definition, resources kept as the template
placeholders the CDK stack substitutes. -/

/-- Placeholder ARN of the document-processor lambda. -/
def documentProcessorLambdaArn : String := "$\x7bDocumentProcessorLambdaArn\x7d"

/-- Placeholder ARN of the RAG lambda. -/
def ragLambdaArn : String := "$\x7bRAGLambdaArn\x7d"

/-- Placeholder ARN of the fine-tuning lambda. -/
def fineTuningLambdaArn : String := "$\x7bFineTuningLambdaArn\x7d"

/-- Placeholder ARN of the proposal-generator lambda. -/
def proposalGeneratorLambdaArn : String := "$\x7bProposalGeneratorLambdaArn\x7d"

/-- The `DetermineWorkflowType` Choice state. -/
def DetermineWorkflowType : StateNode :=
  .choice
    [⟨.stringEquals ["workflow_type"] "document_ingestion", "DocumentProcessing"⟩,
     ⟨.stringEquals ["workflow_type"] "fine_tuning", "FineTuningProcess"⟩,
     ⟨.stringEquals ["workflow_type"] "proposal_generation", "ValidateFinancialData"⟩]
    (some "FailWorkflow")

/-- The `DocumentProcessing` Task state. -/
def DocumentProcessing : StateNode :=
  .task documentProcessorLambdaArn
    [("operation", .lit (.str "process_documents")),
     ("documents", .path ["documents"])]
    ["processed_documents"] [] [] "RAGDocumentIngestion"

/-- The `RAGDocumentIngestion` Task state. -/
def RAGDocumentIngestion : StateNode :=
  .task ragLambdaArn
    [("operation", .lit (.str "ingest_documents")),
     ("processed_documents", .path ["processed_documents"])]
    ["rag_result"] [] [] "WorkflowSucceeded"

/-- The `FineTuningProcess` Task state. -/
def FineTuningProcess : StateNode :=
  .task fineTuningLambdaArn
    [("operation", .lit (.str "prepare_and_start_fine_tuning")),
     ("historic_proposals", .path ["historic_proposals"])]
    ["fine_tuning_result"] [] [] "WorkflowSucceeded"

/-- Parameters of the `ValidateFinancialData` Task state. -/
def validateFinancialDataParameters : List (String × ParamSpec) :=
  [("operation", .lit (.str "validate_financial_data")),
   ("financial_data", .path ["financial_data"])]

/-- The `ValidateFinancialData` Task state. -/
def ValidateFinancialData : StateNode :=
  .task documentProcessorLambdaArn validateFinancialDataParameters
    ["validation_result"] [] [] "CheckValidationResult"

/-- The `CheckValidationResult` Choice state. -/
def CheckValidationResult : StateNode :=
  .choice
    [⟨.booleanEquals ["validation_result", "is_valid"] true, "RetrieveRelevantContext"⟩]
    (some "FailWithValidationError")

/-- The `RetrieveRelevantContext` Task state. -/
def RetrieveRelevantContext : StateNode :=
  .task ragLambdaArn
    [("operation", .lit (.str "retrieve_context")),
     ("client_details", .path ["client_details"]),
     ("validation_result", .path ["validation_result"])]
    ["context_result"] [] [] "GenerateProposal"

/-- The `GenerateProposal` Task state. -/
def GenerateProposal : StateNode :=
  .task proposalGeneratorLambdaArn
    [("operation", .lit (.str "generate_proposal")),
     ("client_details", .path ["client_details"]),
     ("financial_data", .path ["financial_data"]),
     ("context_result", .path ["context_result"])]
    ["proposal_result"] [] [] "CheckProposalValidity"

/-- The `CheckProposalValidity` Choice state. -/
def CheckProposalValidity : StateNode :=
  .choice
    [⟨.booleanEquals ["proposal_result", "is_valid"] true, "FormatFinalDocument"⟩]
    (some "RegenerateProposal")

/-- Parameters of the `RegenerateProposal` Task state. -/
def regenerateProposalParameters : List (String × ParamSpec) :=
  [("operation", .lit (.str "regenerate_proposal")),
   ("client_details", .path ["client_details"]),
   ("financial_data", .path ["financial_data"]),
   ("context_result", .path ["context_result"]),
   ("previous_attempt", .path ["proposal_result"])]

/-- The `RegenerateProposal` Task state; its `ResultPath` overwrites
`$.proposal_result` and it proceeds unconditionally to
`FormatFinalDocument`. -/
def RegenerateProposal : StateNode :=
  .task proposalGeneratorLambdaArn regenerateProposalParameters
    ["proposal_result"] [] [] "FormatFinalDocument"

/-- The `FormatFinalDocument` Task state. -/
def FormatFinalDocument : StateNode :=
  .task proposalGeneratorLambdaArn
    [("operation", .lit (.str "format_document")),
     ("proposal", .path ["proposal_result", "proposal"])]
    ["document_result"] [] [] "WorkflowSucceeded"

/-- The `WorkflowSucceeded` Succeed state. -/
def WorkflowSucceeded : StateNode := .succeed

/-- The `FailWithValidationError` Fail state. -/
def FailWithValidationError : StateNode :=
  .fail "ValidationError" "Financial data validation failed"

/-- The `FailWorkflow` Fail state. -/
def FailWorkflow : StateNode :=
  .fail "InvalidWorkflowType" "Invalid workflow type specified"

/-- The whole banking proposal generator workflow graph, starting at
`DetermineWorkflowType`. -/
def workflow : StateGraph where
  startAt := "DetermineWorkflowType"
  states :=
    [("DetermineWorkflowType", DetermineWorkflowType),
     ("DocumentProcessing", DocumentProcessing),
     ("RAGDocumentIngestion", RAGDocumentIngestion),
     ("FineTuningProcess", FineTuningProcess),
     ("ValidateFinancialData", ValidateFinancialData),
     ("CheckValidationResult", CheckValidationResult),
     ("RetrieveRelevantContext", RetrieveRelevantContext),
     ("GenerateProposal", GenerateProposal),
     ("CheckProposalValidity", CheckProposalValidity),
     ("RegenerateProposal", RegenerateProposal),
     ("FormatFinalDocument", FormatFinalDocument),
     ("WorkflowSucceeded", WorkflowSucceeded),
     ("FailWithValidationError", FailWithValidationError),
     ("FailWorkflow", FailWorkflow)]

/-! ## Interpreter, retry/catch policy engine and execution records,
modelled from the specification (sections 4.3-4.6 and 7). -/

/-- TaskError of section 7: raised by a task invocation. -/
structure TaskError where
  code : String
  message : String

/-- Modelled from the spec: the environment of one execution.  `oracle`
is the Task Executor Interface (section 4.3), indexed by resource,
rendered parameters and attempt number so that retried invocations may
observe different outcomes; `dur` gives each invocation's wall-clock
duration; `jitter` is the bounded random jitter added to a backoff delay
(section 4.4); `deadline` is the whole-execution timeout (section 4.5). -/
structure ExecEnv where
  oracle : String → JValue → Nat → Except TaskError JValue
  dur : String → JValue → Nat
  jitter : Nat → Nat
  deadline : Option Nat

/-- Execution status of section 3. -/
inductive Status where
  | running
  | succeeded
  | failed (errorCode : String) (cause : String)
  | timedOut
deriving DecidableEq

/-- Transition record of section 3. -/
structure Transition where
  fromState : String
  toState : String
  inputSnapshot : JValue
  outputSnapshot : JValue
  error : Option String
  timestamp : Nat

/-- Whether the whole-execution deadline has expired. -/
def expired (env : ExecEnv) (now : Nat) : Bool :=
  match env.deadline with
  | some t => decide (t ≤ now)
  | none => false

/-- Modelled from the spec: the un-jittered backoff delay slept after the
given (1-based) failed attempt, `backoffBaseMs * backoffMultiplier ^
(attempt - 1)` (section 4.4). -/
def backoffDelay (r : RetryRule) (attempt : Nat) : Nat :=
  r.backoffBaseMs * r.backoffMultiplier ^ (attempt - 1)

/-- Whether an error-code set matches a code (`"*"` is match-all). -/
def matchesCodes (codes : List String) (code : String) : Bool :=
  codes.contains code || codes.contains "*"

/-- First retry rule applying to an error code, in authored order. -/
def findRetryRule (rules : List RetryRule) (code : String) : Option RetryRule :=
  rules.find? fun r => matchesCodes r.errorCodes code

/-- First catch rule applying to an error code, in authored order. -/
def findCatchRule (rules : List CatchRule) (code : String) : Option CatchRule :=
  rules.find? fun r => matchesCodes r.errorCodes code

/-- Modelled from the spec: the retry loop of the Retry/Catch Policy
Engine (section 4.4).  Invokes the attempt-indexed oracle; on an error it
scans the retry rules for the first match and, while attempts-so-far is
below the rule's `maxAttempts`, sleeps the jittered backoff delay and
re-invokes.  Returns the final result together with the list of delays
slept, in order; `fuel` bounds the recursion and is chosen at least as
large as every `maxAttempts`. -/
def runRetries (o : Nat → Except TaskError JValue) (jitter : Nat → Nat)
    (rules : List RetryRule) : Nat → Nat → Except TaskError JValue × List Nat
  | fuel, attempt =>
    match o attempt with
    | .ok v => (.ok v, [])
    | .error e =>
      match findRetryRule rules e.code with
      | none => (.error e, [])
      | some r =>
        if attempt < r.maxAttempts then
          match fuel with
          | 0 => (.error e, [])
          | fuel' + 1 =>
            let rest := runRetries o jitter rules fuel' (attempt + 1)
            (rest.1, (backoffDelay r attempt + jitter attempt) :: rest.2)
        else (.error e, [])

/-- Enough retry fuel for a rule list: the largest `maxAttempts`. -/
def retryFuel (rules : List RetryRule) : Nat :=
  rules.foldr (fun r acc => max r.maxAttempts acc) 0

/-- Total of a list of delays. -/
def sumDelays (l : List Nat) : Nat := l.foldr Nat.add 0

/-- Outcome of interpreting one state: either advance to a next state
with a (possibly task-updated) Document, or halt the execution.  Both
carry the Transition record appended to history before the engine acts
on the transition, and the task invocation (state name and number of
attempts) the step performed, if any. -/
inductive StepRes where
  | goto (next : String) (doc : JValue) (dt : Nat)
      (invoked : Option (String × Nat)) (rec : Transition)
  | halt (status : Status) (invoked : Option (String × Nat)) (rec : Transition)

/-- Modelled from the spec: interpreting a Task state (section 4.5, Task
case, wrapped by the section 4.4 policy engine).  Renders the
parameters, invokes the executor through the retry loop, merges a
successful output at `resultPath`, diverts a caught error to the catch
target with the error merged at the catch's `resultPath`, and fails the
whole execution on an uncaught error (section 7). -/
def taskStep (env : ExecEnv) (now : Nat) (s : String) (d : JValue)
    (res : String) (ps : List (String × ParamSpec)) (rp : List String)
    (rr : List RetryRule) (cr : List CatchRule) (nxt : String) : StepRes :=
  let params := renderParams d ps
  let rres := runRetries (env.oracle res params) env.jitter rr (retryFuel rr) 1
  let attempts := rres.2.length + 1
  let dt := env.dur res params + sumDelays rres.2
  match rres.1 with
  | .ok out =>
    .goto nxt (setPath rp out d) dt (some (s, attempts))
      ⟨s, nxt, d, setPath rp out d, none, now + dt⟩
  | .error e =>
    match findCatchRule cr e.code with
    | some c =>
      .goto c.next (setPath c.resultPath (.obj [("Error", .str e.code), ("Cause", .str e.message)]) d)
        dt (some (s, attempts))
        ⟨s, c.next, d,
         setPath c.resultPath (.obj [("Error", .str e.code), ("Cause", .str e.message)]) d,
         some e.code, now + dt⟩
    | none =>
      .halt (.failed e.code e.message) (some (s, attempts))
        ⟨s, s, d, d, some e.code, now + dt⟩

/-- Modelled from the spec: the Interpreter's transition function
(section 4.5), one state at a time.  An expired whole-execution deadline
forces TimedOut regardless of the current node, with a synthetic
terminal record.  A Choice advances to the first matching rule's target
(or the default) and never changes the Document. -/
def step (g : StateGraph) (env : ExecEnv) (now : Nat) (s : String) (d : JValue) :
    StepRes :=
  if expired env now then
    .halt .timedOut none ⟨s, s, d, d, some "States.Timeout", now⟩
  else
    match lookupState g s with
    | none =>
      .halt (.failed "States.StateNotFound" s) none
        ⟨s, s, d, d, some "States.StateNotFound", now⟩
    | some .succeed => .halt .succeeded none ⟨s, s, d, d, none, now⟩
    | some (.fail err cause) =>
      .halt (.failed err cause) none ⟨s, s, d, d, some err, now⟩
    | some (.choice rules dflt) =>
      match choiceTarget rules dflt d with
      | some nxt => .goto nxt d 0 none ⟨s, nxt, d, d, none, now⟩
      | none =>
        .halt (.failed "States.NoChoiceMatched" s) none
          ⟨s, s, d, d, some "States.NoChoiceMatched", now⟩
    | some (.task res ps rp rr cr nxt) => taskStep env now s d res ps rp rr cr nxt

/-- The observable outcome of a (fuel-bounded) run: final status, final
Document, the append-only history of Transition records, and the task
invocations performed (state name and attempt count, in order). -/
structure RunResult where
  status : Status
  doc : JValue
  history : List Transition
  invoked : List (String × Nat)

/-- Modelled from the spec: the Interpreter run loop (section 4.5),
driving `step` until a terminal status or fuel exhaustion (status stays
Running when fuel runs out). -/
def run (g : StateGraph) (env : ExecEnv) : Nat → Nat → String → JValue → RunResult
  | 0, _, _, d => ⟨.running, d, [], []⟩
  | fuel + 1, now, s, d =>
    match step g env now s d with
    | .halt st inv rec => ⟨st, d, [rec], inv.toList⟩
    | .goto s' d' dt inv rec =>
      let r := run g env fuel (now + dt) s' d'
      ⟨r.status, r.doc, rec :: r.history, inv.toList ++ r.invoked⟩

/-- Total number of invocations of the named task state in an invocation
trace (attempt counts summed). -/
def countInvocations (x : String) : List (String × Nat) → Nat
  | [] => 0
  | e :: rest => (if e.1 == x then e.2 else 0) + countInvocations x rest

/-- Whole-execution timeout of the deployed state machine, from
infrastructure/lib/banking-proposal-stack.ts (`timeout:
cdk.Duration.minutes(30)`), in milliseconds. -/
def stateMachineTimeoutMillis : Nat := 30 * 60 * 1000

/-! ## Definition Loader validation (section 4.1). -/

/-- DefinitionError of section 4.1, naming the violated invariant. -/
inductive DefinitionError where
  | duplicateName (n : String)
  | missingStart (n : String)
  | danglingRef (origin : String) (target : String)
  | choiceWithoutDefault (n : String)
deriving DecidableEq

/-- First state name occurring more than once. -/
def firstDuplicate (names : List String) : Option String :=
  names.find? fun n => 2 ≤ (names.filter fun m => m == n).length

/-- First dangling transition target: a pair of an origin state and a
`Next`/`Default`/catch target that resolves to no defined state. -/
def firstDangling (g : StateGraph) : Option (String × String) :=
  g.states.findSome? fun p =>
    ((succStates p.2).find? fun t => (lookupState g t).isNone).map fun t => (p.1, t)

/-- Whether a node is a Choice lacking a Default. -/
def choiceNoDefault : StateNode → Bool
  | .choice _ none => true
  | _ => false

/-- Modelled from the spec: the Definition Loader's structural validation
(section 4.1), returning the first violated invariant (duplicate name,
missing start state, dangling reference, Choice without default) or
`none` for a valid StateGraph. -/
def validateGraph (g : StateGraph) : Option DefinitionError :=
  match firstDuplicate (g.states.map Prod.fst) with
  | some n => some (.duplicateName n)
  | none =>
    if (lookupState g g.startAt).isNone then some (.missingStart g.startAt)
    else
      match firstDangling g with
      | some pr => some (.danglingRef pr.1 pr.2)
      | none =>
        match (g.states.find? fun p => choiceNoDefault p.2).map Prod.fst with
        | some n => some (.choiceWithoutDefault n)
        | none => none

/-! ## A topological rank for the reference graph: every transition
strictly increases it, so the graph is acyclic. -/

/-- Ranks of the reference workflow's states along the control flow. -/
def workflowRanks : List (String × Nat) :=
  [("DetermineWorkflowType", 0),
   ("DocumentProcessing", 1),
   ("FineTuningProcess", 1),
   ("ValidateFinancialData", 1),
   ("RAGDocumentIngestion", 2),
   ("CheckValidationResult", 2),
   ("RetrieveRelevantContext", 3),
   ("GenerateProposal", 4),
   ("CheckProposalValidity", 5),
   ("RegenerateProposal", 6),
   ("FormatFinalDocument", 7),
   ("WorkflowSucceeded", 8),
   ("FailWithValidationError", 8),
   ("FailWorkflow", 8)]

/-- Rank of a state of the reference workflow (8 for terminals and for
names outside the graph). -/
def workflowRank (s : String) : Nat := (workflowRanks.lookup s).getD 8

/-- A rank function witnessing that every one-step transition target of
every node of a graph has a strictly larger rank. -/
def EdgeInc (g : StateGraph) (rk : String → Nat) : Prop :=
  ∀ p ∈ g.states, ∀ t ∈ succStates p.2, rk p.1 < rk t

/-- Whether a node declares no retry rules (vacuously true off tasks). -/
def taskRetryEmpty : StateNode → Bool
  | .task _ _ _ rr _ _ => rr.isEmpty
  | _ => true

/-- Whether a node declares neither retry nor catch rules. -/
def taskRulesEmpty : StateNode → Bool
  | .task _ _ _ rr cr _ => rr.isEmpty && cr.isEmpty
  | _ => true
/-- Environment used by concrete witnesses: a trivially succeeding
executor, zero durations and jitter, and no deadline. -/
def witnessEnv : ExecEnv :=
  ⟨fun _ _ _ => .ok .null, fun _ _ => 0, fun _ => 0, none⟩
/-- Environment whose tasks always fail, used by concrete witnesses. -/
def failingEnv : ExecEnv :=
  ⟨fun _ _ _ => .error ⟨"Lambda.Unknown", "task failed"⟩, fun _ _ => 0,
   fun _ => 0, none⟩
/-- Environment whose deadline is the deployed 30-minute timeout,
measured from instant 0. -/
def deadlineEnv : ExecEnv :=
  ⟨fun _ _ _ => .ok .null, fun _ _ => 0, fun _ => 0,
   some stateMachineTimeoutMillis⟩
/-- Environment whose document-processor reports invalid financial data,
used by the C1 witness. -/
def invalidFinancialsEnv : ExecEnv :=
  ⟨fun _ _ _ => .ok (.obj [("is_valid", .bool false)]), fun _ _ => 0,
   fun _ => 0, none⟩
/-- Environment whose proposal generator always emits an invalid
proposal, used by the C2 witness: even the regenerated attempt is
invalid, and formatting still follows. -/
def invalidProposalEnv : ExecEnv :=
  ⟨fun _ _ _ => .ok (.obj [("is_valid", .bool false)]), fun _ _ => 0,
   fun _ => 0, none⟩

/-! ## Basic lemmas about lookups, paths and predicates. -/

theorem lookup_mem {β : Type} :
    ∀ (l : List (String × β)) (k : String) (v : β),
      l.lookup k = some v → (k, v) ∈ l := by
  intro l
  induction l with
  | nil => intro k v h; simp [List.lookup] at h
  | cons p rest ih =>
    intro k v h
    obtain ⟨k', v'⟩ := p
    rw [List.lookup] at h
    cases hk : (k == k') with
    | true =>
      rw [hk] at h
      simp only [Option.some.injEq] at h
      subst h
      have : k = k' := by exact eq_of_beq hk
      subst this
      exact List.mem_cons_self _ _
    | false =>
      rw [hk] at h
      exact List.mem_cons_of_mem _ (ih k v h)

theorem lookup_replaceField :
    ∀ (fs : List (String × JValue)) (k : String) (v : JValue),
      (replaceField fs k v).lookup k = some v := by
  intro fs
  induction fs with
  | nil => intro k v; simp [replaceField, List.lookup]
  | cons p rest ih =>
    intro k v
    obtain ⟨k', v'⟩ := p
    by_cases hk : (k == k') = true
    · simp [replaceField, hk, List.lookup]
    · simp only [replaceField, Bool.not_eq_true] at hk ⊢
      rw [hk]
      simp only [List.lookup, hk]
      exact ih k v

theorem lookup_append_of_none {β : Type} :
    ∀ (fs : List (String × β)) (k : String) (v : β),
      fs.lookup k = none → (fs ++ [(k, v)]).lookup k = some v := by
  intro fs
  induction fs with
  | nil => intro k v _; simp [List.lookup]
  | cons p rest ih =>
    intro k v h
    obtain ⟨k', v'⟩ := p
    rw [List.lookup] at h
    cases hk : (k == k') with
    | true => rw [hk] at h; exact absurd h (by simp)
    | false =>
      rw [hk] at h
      simp only [List.cons_append, List.lookup, hk]
      exact ih k v h

theorem getPath_buildNested :
    ∀ (p q : List String) (v : JValue),
      getPath (p ++ q) (buildNested p v) = getPath q v := by
  intro p
  induction p with
  | nil => intro q v; rfl
  | cons k ks ih =>
    intro q v
    simp only [buildNested, List.cons_append, getPath, List.lookup, beq_self_eq_true]
    exact ih q v

/-- `withSet` then `get` along the same path reaches the new value. -/
theorem getPath_setPath :
    ∀ (p q : List String) (v d : JValue),
      getPath (p ++ q) (setPath p v d) = getPath q v := by
  intro p
  induction p with
  | nil => intro q v d; rfl
  | cons k ks ih =>
    intro q v d
    simp only [setPath, List.cons_append]
    cases hlk : (fieldsOf d).lookup k with
    | some old =>
      simp only [getPath, lookup_replaceField]
      exact ih q v old
    | none =>
      simp only [getPath, lookup_append_of_none _ _ _ hlk]
      exact getPath_buildNested ks q v

theorem evalPred_stringEquals_of_getPath {d : JValue} {p : List String} {s : String}
    (c : String) (h : getPath p d = some (.str s)) :
    evalPred d (.stringEquals p c) = (s == c) := by
  simp [evalPred, h]

theorem evalPred_stringEquals_of_ne {d : JValue} {p : List String} {c : String}
    (h : getPath p d ≠ some (.str c)) :
    evalPred d (.stringEquals p c) = false := by
  simp only [evalPred]
  cases hg : getPath p d with
  | none => rfl
  | some w =>
    cases w with
    | str s =>
      simp only []
      cases hs : (s == c) with
      | true =>
        exact absurd (hg.trans (by rw [eq_of_beq hs])) h
      | false => rfl
    | null => rfl
    | num _ => rfl
    | bool _ => rfl
    | obj _ => rfl
    | arr _ => rfl

theorem evalPred_booleanEquals_of_getPath {d : JValue} {p : List String} {b : Bool}
    (c : Bool) (h : getPath p d = some (.bool b)) :
    evalPred d (.booleanEquals p c) = (b == c) := by
  simp [evalPred, h]

theorem evalPred_booleanEquals_of_ne {d : JValue} {p : List String} {c : Bool}
    (h : getPath p d ≠ some (.bool c)) :
    evalPred d (.booleanEquals p c) = false := by
  simp only [evalPred]
  cases hg : getPath p d with
  | none => rfl
  | some w =>
    cases w with
    | bool b =>
      simp only []
      cases hb : (b == c) with
      | true =>
        exact absurd (hg.trans (by rw [eq_of_beq hb])) h
      | false => rfl
    | null => rfl
    | num _ => rfl
    | str _ => rfl
    | obj _ => rfl
    | arr _ => rfl

/-! ## Lemmas about Choice evaluation and the run loop. -/

theorem choiceTarget_mem :
    ∀ (rules : List ChoiceRule) (dflt : Option String) (d : JValue) (nxt : String),
      choiceTarget rules dflt d = some nxt →
      nxt ∈ rules.map ChoiceRule.next ++ dflt.toList := by
  intro rules
  induction rules with
  | nil =>
    intro dflt d nxt h
    simp only [choiceTarget] at h
    simp [h]
  | cons r rest ih =>
    intro dflt d nxt h
    simp only [choiceTarget] at h
    by_cases hp : evalPred d r.pred = true
    · rw [if_pos hp] at h
      simp only [Option.some.injEq] at h
      simp [h]
    · rw [if_neg hp] at h
      have := ih dflt d nxt h
      simp only [List.map_cons, List.cons_append, List.mem_cons]
      exact Or.inr this

theorem run_zero (g : StateGraph) (env : ExecEnv) (now : Nat) (s : String) (d : JValue) :
    run g env 0 now s d = ⟨.running, d, [], []⟩ := rfl

theorem run_halt {g : StateGraph} {env : ExecEnv} (fuel : Nat) {now : Nat}
    {s : String} {d : JValue} {st : Status} {inv : Option (String × Nat)}
    {rec : Transition} (h : step g env now s d = .halt st inv rec) :
    run g env (fuel + 1) now s d = ⟨st, d, [rec], inv.toList⟩ := by
  simp only [run, h]

theorem run_goto {g : StateGraph} {env : ExecEnv} (fuel : Nat) {now : Nat}
    {s : String} {d : JValue} {s' : String} {d' : JValue} {dt : Nat}
    {inv : Option (String × Nat)} {rec : Transition}
    (h : step g env now s d = .goto s' d' dt inv rec) :
    run g env (fuel + 1) now s d =
      ⟨(run g env fuel (now + dt) s' d').status,
       (run g env fuel (now + dt) s' d').doc,
       rec :: (run g env fuel (now + dt) s' d').history,
       inv.toList ++ (run g env fuel (now + dt) s' d').invoked⟩ := by
  simp only [run, h]

/-- The reference graph's transitions strictly increase `workflowRank`. -/
theorem workflow_edgeInc : EdgeInc workflow workflowRank := by
  unfold EdgeInc
  decide

/-- Every rank is at most 8. -/
theorem workflowRank_le (s : String) : workflowRank s ≤ 8 := by
  unfold workflowRank
  cases h : workflowRanks.lookup s with
  | none => simp
  | some v =>
    have hv : (s, v) ∈ workflowRanks := lookup_mem _ _ _ h
    have : ∀ p ∈ workflowRanks, p.2 ≤ 8 := by decide
    simpa using this _ hv

theorem step_of_expired {g : StateGraph} {env : ExecEnv} {now : Nat}
    (s : String) (d : JValue) (hexp : expired env now = true) :
    step g env now s d = .halt .timedOut none ⟨s, s, d, d, some "States.Timeout", now⟩ := by
  simp only [step, hexp, if_true]

theorem step_of_none {g : StateGraph} {env : ExecEnv} {now : Nat}
    {s : String} (d : JValue) (hexp : expired env now = false)
    (hl : lookupState g s = none) :
    step g env now s d =
      .halt (.failed "States.StateNotFound" s) none
        ⟨s, s, d, d, some "States.StateNotFound", now⟩ := by
  simp only [step, hexp, Bool.false_eq_true, if_false, hl]

theorem step_of_succeed {g : StateGraph} {env : ExecEnv} {now : Nat}
    {s : String} (d : JValue) (hexp : expired env now = false)
    (hl : lookupState g s = some .succeed) :
    step g env now s d = .halt .succeeded none ⟨s, s, d, d, none, now⟩ := by
  simp only [step, hexp, Bool.false_eq_true, if_false, hl]

theorem step_of_fail {g : StateGraph} {env : ExecEnv} {now : Nat}
    {s : String} {err cause : String} (d : JValue) (hexp : expired env now = false)
    (hl : lookupState g s = some (.fail err cause)) :
    step g env now s d = .halt (.failed err cause) none ⟨s, s, d, d, some err, now⟩ := by
  simp only [step, hexp, Bool.false_eq_true, if_false, hl]

theorem step_of_choice {g : StateGraph} {env : ExecEnv} {now : Nat}
    {s : String} {rules : List ChoiceRule} {dflt : Option String}
    (d : JValue) (hexp : expired env now = false)
    (hl : lookupState g s = some (.choice rules dflt)) :
    step g env now s d =
      match choiceTarget rules dflt d with
      | some nxt => .goto nxt d 0 none ⟨s, nxt, d, d, none, now⟩
      | none =>
        .halt (.failed "States.NoChoiceMatched" s) none
          ⟨s, s, d, d, some "States.NoChoiceMatched", now⟩ := by
  simp only [step, hexp, Bool.false_eq_true, if_false, hl]

theorem step_of_task {g : StateGraph} {env : ExecEnv} {now : Nat}
    {s : String} {res : String} {ps : List (String × ParamSpec)}
    {rp : List String} {rr : List RetryRule} {cr : List CatchRule} {nxt : String}
    (d : JValue) (hexp : expired env now = false)
    (hl : lookupState g s = some (.task res ps rp rr cr nxt)) :
    step g env now s d = taskStep env now s d res ps rp rr cr nxt := by
  simp only [step, hexp, Bool.false_eq_true, if_false, hl]

theorem taskStep_ok {env : ExecEnv} {now : Nat} {s : String} {d : JValue}
    {res : String} {ps : List (String × ParamSpec)} {rp : List String}
    {rr : List RetryRule} {cr : List CatchRule} {nxt : String}
    {out : JValue} {ds : List Nat}
    (h : runRetries (env.oracle res (renderParams d ps)) env.jitter rr (retryFuel rr) 1
          = (.ok out, ds)) :
    taskStep env now s d res ps rp rr cr nxt =
      .goto nxt (setPath rp out d)
        (env.dur res (renderParams d ps) + sumDelays ds)
        (some (s, ds.length + 1))
        ⟨s, nxt, d, setPath rp out d, none,
         now + (env.dur res (renderParams d ps) + sumDelays ds)⟩ := by
  simp only [taskStep, h]

theorem taskStep_uncaught {env : ExecEnv} {now : Nat} {s : String} {d : JValue}
    {res : String} {ps : List (String × ParamSpec)} {rp : List String}
    {rr : List RetryRule} {cr : List CatchRule} {nxt : String}
    {e : TaskError} {ds : List Nat}
    (h : runRetries (env.oracle res (renderParams d ps)) env.jitter rr (retryFuel rr) 1
          = (.error e, ds))
    (hc : findCatchRule cr e.code = none) :
    taskStep env now s d res ps rp rr cr nxt =
      .halt (.failed e.code e.message) (some (s, ds.length + 1))
        ⟨s, s, d, d, some e.code,
         now + (env.dur res (renderParams d ps) + sumDelays ds)⟩ := by
  simp only [taskStep, h, hc]

/-- A retry loop with no retry rules performs exactly one invocation and
sleeps no delay. -/
theorem runRetries_nil (o : Nat → Except TaskError JValue) (jitter : Nat → Nat)
    (fuel attempt : Nat) :
    runRetries o jitter [] fuel attempt =
      (match o attempt with
       | .ok v => (Except.ok v, [])
       | .error e => (Except.error e, [])) := by
  cases h : o attempt with
  | ok v => simp only [runRetries, h]
  | error e => simp only [runRetries, h, findRetryRule, List.find?]

/-- A retry loop with no retry rules sleeps no delay. -/
theorem runRetries_nil_delays (o : Nat → Except TaskError JValue) (jitter : Nat → Nat)
    (fuel attempt : Nat) :
    (runRetries o jitter [] fuel attempt).2 = [] := by
  rw [runRetries_nil]
  cases o attempt <;> rfl

/-- Every task node of the reference workflow declares no retry rules. -/
theorem workflow_retryEmpty : ∀ p ∈ workflow.states, taskRetryEmpty p.2 = true := by
  decide

theorem taskStep_goto_inv {env : ExecEnv} {now : Nat} {s : String} {d : JValue}
    {res : String} {ps : List (String × ParamSpec)} {rp : List String}
    {rr : List RetryRule} {cr : List CatchRule} {nxt : String}
    {s' : String} {d' : JValue} {dt : Nat} {inv : Option (String × Nat)}
    {rec : Transition}
    (h : taskStep env now s d res ps rp rr cr nxt = .goto s' d' dt inv rec) :
    (s' = nxt ∨ ∃ c ∈ cr, s' = c.next) ∧
      ∃ a, inv = some (s, a) ∧ (rr.isEmpty = true → a = 1) := by
  simp only [taskStep] at h
  rcases hres : runRetries (env.oracle res (renderParams d ps)) env.jitter rr
      (retryFuel rr) 1 with ⟨r1, ds⟩
  rw [hres] at h
  have hds : rr.isEmpty = true → ds = [] := by
    intro hrr
    have : rr = [] := List.isEmpty_iff.mp hrr
    subst this
    have := runRetries_nil_delays (env.oracle res (renderParams d ps)) env.jitter
      (retryFuel ([] : List RetryRule)) 1
    rw [hres] at this
    exact this
  cases r1 with
  | ok out =>
    simp only [] at h
    injection h with h1 h2 h3 h4 h5
    refine ⟨Or.inl h1.symm, ds.length + 1, h4.symm, ?_⟩
    intro hrr
    rw [hds hrr]
    rfl
  | error e =>
    simp only [] at h
    cases hc : findCatchRule cr e.code with
    | some c =>
      rw [hc] at h
      injection h with h1 h2 h3 h4 h5
      refine ⟨Or.inr ⟨c, List.mem_of_find?_eq_some hc, h1.symm⟩, ds.length + 1, h4.symm, ?_⟩
      intro hrr
      rw [hds hrr]
      rfl
    | none =>
      rw [hc] at h
      exact StepRes.noConfusion h

theorem taskStep_halt_inv {env : ExecEnv} {now : Nat} {s : String} {d : JValue}
    {res : String} {ps : List (String × ParamSpec)} {rp : List String}
    {rr : List RetryRule} {cr : List CatchRule} {nxt : String}
    {st : Status} {inv : Option (String × Nat)} {rec : Transition}
    (h : taskStep env now s d res ps rp rr cr nxt = .halt st inv rec) :
    st ≠ .running ∧ ∃ a, inv = some (s, a) ∧ (rr.isEmpty = true → a = 1) := by
  simp only [taskStep] at h
  rcases hres : runRetries (env.oracle res (renderParams d ps)) env.jitter rr
      (retryFuel rr) 1 with ⟨r1, ds⟩
  rw [hres] at h
  have hds : rr.isEmpty = true → ds = [] := by
    intro hrr
    have : rr = [] := List.isEmpty_iff.mp hrr
    subst this
    have := runRetries_nil_delays (env.oracle res (renderParams d ps)) env.jitter
      (retryFuel ([] : List RetryRule)) 1
    rw [hres] at this
    exact this
  cases r1 with
  | ok out => exact StepRes.noConfusion h
  | error e =>
    simp only [] at h
    cases hc : findCatchRule cr e.code with
    | some c => rw [hc] at h; exact StepRes.noConfusion h
    | none =>
      rw [hc] at h
      injection h with h1 h2 h3
      refine ⟨by rw [← h1]; intro hco; exact Status.noConfusion hco,
        ds.length + 1, h2.symm, ?_⟩
      intro hrr
      rw [hds hrr]
      rfl

theorem step_goto_inv {g : StateGraph} {env : ExecEnv} {now : Nat} {s : String}
    {d : JValue} {s' : String} {d' : JValue} {dt : Nat}
    {inv : Option (String × Nat)} {rec : Transition}
    (h : step g env now s d = .goto s' d' dt inv rec) :
    ∃ node, lookupState g s = some node ∧ s' ∈ succStates node ∧
      (inv = none ∨ ∃ a, inv = some (s, a) ∧ (taskRetryEmpty node = true → a = 1)) := by
  cases hexp : expired env now with
  | true => rw [step_of_expired s d hexp] at h; exact StepRes.noConfusion h
  | false =>
    cases hl : lookupState g s with
    | none => rw [step_of_none d hexp hl] at h; exact StepRes.noConfusion h
    | some node =>
      cases node with
      | succeed => rw [step_of_succeed d hexp hl] at h; exact StepRes.noConfusion h
      | fail err cause => rw [step_of_fail d hexp hl] at h; exact StepRes.noConfusion h
      | choice rules dflt =>
        rw [step_of_choice d hexp hl] at h
        cases hct : choiceTarget rules dflt d with
        | some nxt =>
          rw [hct] at h
          injection h with h1 h2 h3 h4 h5
          refine ⟨.choice rules dflt, rfl, ?_, Or.inl h4.symm⟩
          rw [← h1]
          exact choiceTarget_mem rules dflt d nxt hct
        | none => rw [hct] at h; exact StepRes.noConfusion h
      | task res ps rp rr cr nxt =>
        rw [step_of_task d hexp hl] at h
        obtain ⟨hmem, a, hinv, ha⟩ := taskStep_goto_inv h
        refine ⟨.task res ps rp rr cr nxt, rfl, ?_, Or.inr ⟨a, hinv, ha⟩⟩
        rcases hmem with h1 | ⟨c, hc, h1⟩
        · subst h1; exact List.mem_cons_self _ _
        · subst h1
          exact List.mem_cons_of_mem _ (List.mem_map_of_mem CatchRule.next hc)

theorem step_halt_inv {g : StateGraph} {env : ExecEnv} {now : Nat} {s : String}
    {d : JValue} {st : Status} {inv : Option (String × Nat)} {rec : Transition}
    (h : step g env now s d = .halt st inv rec) :
    st ≠ .running ∧
      (inv = none ∨ ∃ node a, lookupState g s = some node ∧ inv = some (s, a) ∧
        (taskRetryEmpty node = true → a = 1)) := by
  cases hexp : expired env now with
  | true =>
    rw [step_of_expired s d hexp] at h
    injection h with h1 h2 h3
    exact ⟨by rw [← h1]; intro hco; exact Status.noConfusion hco, Or.inl h2.symm⟩
  | false =>
    cases hl : lookupState g s with
    | none =>
      rw [step_of_none d hexp hl] at h
      injection h with h1 h2 h3
      exact ⟨by rw [← h1]; intro hco; exact Status.noConfusion hco, Or.inl h2.symm⟩
    | some node =>
      cases node with
      | succeed =>
        rw [step_of_succeed d hexp hl] at h
        injection h with h1 h2 h3
        exact ⟨by rw [← h1]; intro hco; exact Status.noConfusion hco, Or.inl h2.symm⟩
      | fail err cause =>
        rw [step_of_fail d hexp hl] at h
        injection h with h1 h2 h3
        exact ⟨by rw [← h1]; intro hco; exact Status.noConfusion hco, Or.inl h2.symm⟩
      | choice rules dflt =>
        rw [step_of_choice d hexp hl] at h
        cases hct : choiceTarget rules dflt d with
        | some nxt => rw [hct] at h; exact StepRes.noConfusion h
        | none =>
          rw [hct] at h
          injection h with h1 h2 h3
          exact ⟨by rw [← h1]; intro hco; exact Status.noConfusion hco, Or.inl h2.symm⟩
      | task res ps rp rr cr nxt =>
        rw [step_of_task d hexp hl] at h
        obtain ⟨hst, a, hinv, ha⟩ := taskStep_halt_inv h
        exact ⟨hst, Or.inr ⟨.task res ps rp rr cr nxt, a, rfl, hinv, ha⟩⟩

/-- Every task invocation of a run is at a state whose rank is at least
the rank of the run's start state, for a rank every edge increases. -/
theorem run_invoked_rank {g : StateGraph} {rk : String → Nat}
    (hE : EdgeInc g rk) (env : ExecEnv) :
    ∀ fuel now s d, ∀ e ∈ (run g env fuel now s d).invoked, rk s ≤ rk e.1 := by
  intro fuel
  induction fuel with
  | zero => intro now s d e he; simp [run_zero] at he
  | succ n ih =>
    intro now s d e he
    cases hs : step g env now s d with
    | halt st inv rec =>
      rw [run_halt n hs] at he
      rcases (step_halt_inv hs).2 with hnone | ⟨node, a, _, hinv, _⟩
      · subst hnone; simp at he
      · subst hinv
        simp only [Option.toList_some, List.mem_singleton] at he
        subst he
        exact le_refl _
    | goto s' d' dt inv rec =>
      rw [run_goto n hs] at he
      obtain ⟨node, hl, hsucc, hinv⟩ := step_goto_inv hs
      have hlt : rk s < rk s' := hE _ (lookup_mem _ _ _ hl) _ hsucc
      simp only [List.mem_append] at he
      rcases he with he | he
      · rcases hinv with hnone | ⟨a, hinv, _⟩
        · subst hnone; simp at he
        · subst hinv
          simp only [Option.toList_some, List.mem_singleton] at he
          subst he
          exact le_refl _
      · exact le_trans (le_of_lt hlt) (ih (now + dt) s' d' e he)

theorem countInvocations_append (x : String) :
    ∀ (l1 l2 : List (String × Nat)),
      countInvocations x (l1 ++ l2) = countInvocations x l1 + countInvocations x l2 := by
  intro l1 l2
  induction l1 with
  | nil => simp [countInvocations]
  | cons e rest ih => simp [countInvocations, ih]; omega

theorem countInvocations_eq_zero {x : String} {l : List (String × Nat)}
    (h : ∀ e ∈ l, e.1 ≠ x) : countInvocations x l = 0 := by
  induction l with
  | nil => rfl
  | cons e rest ih =>
    simp only [countInvocations]
    rw [if_neg (by simpa using h e (List.mem_cons_self _ _)),
      ih fun e' he' => h e' (List.mem_cons_of_mem _ he')]

/-- In the reference workflow, any single run invokes any given task
state at most once in total (the graph is acyclic and no task has retry
rules). -/
theorem workflow_count_le (env : ExecEnv) (x : String) :
    ∀ fuel now s d,
      countInvocations x (run workflow env fuel now s d).invoked ≤ 1 := by
  intro fuel
  induction fuel with
  | zero => intro now s d; simp [run_zero, countInvocations]
  | succ n ih =>
    intro now s d
    cases hs : step workflow env now s d with
    | halt st inv rec =>
      rw [run_halt n hs]
      rcases (step_halt_inv hs).2 with hnone | ⟨node, a, hl, hinv, ha⟩
      · subst hnone; simp [countInvocations]
      · subst hinv
        have ha1 : a = 1 := ha (workflow_retryEmpty _ (lookup_mem _ _ _ hl))
        subst ha1
        simp only [Option.toList_some, countInvocations]
        split <;> simp
    | goto s' d' dt inv rec =>
      rw [run_goto n hs]
      obtain ⟨node, hl, hsucc, hinv⟩ := step_goto_inv hs
      rcases hinv with hnone | ⟨a, hinv, ha⟩
      · subst hnone
        simpa [countInvocations] using ih (now + dt) s' d'
      · subst hinv
        have ha1 : a = 1 := ha (workflow_retryEmpty _ (lookup_mem _ _ _ hl))
        subst ha1
        rw [countInvocations_append]
        by_cases hx : (s == x) = true
        · have hxs : s = x := eq_of_beq hx
          have h0 : countInvocations x (run workflow env n (now + dt) s' d').invoked = 0 := by
            refine countInvocations_eq_zero fun e he hex => ?_
            have h1 : workflowRank s' ≤ workflowRank e.1 :=
              run_invoked_rank workflow_edgeInc env n (now + dt) s' d' e he
            have h2 : workflowRank s < workflowRank s' :=
              workflow_edgeInc _ (lookup_mem _ _ _ hl) _ hsucc
            rw [hex, ← hxs] at h1
            omega
          rw [h0]
          simp [countInvocations, hx]
        · have hx' : (s == x) = false := by simpa using hx
          have h1 := ih (now + dt) s' d'
          simp only [Option.toList_some, countInvocations, hx', Bool.false_eq_true,
            if_false]
          omega

/-- With a rank every edge increases and bounded by `B`, any run with
more than `B` fuel reaches a verdict: its status is never Running. -/
theorem run_terminates {g : StateGraph} {rk : String → Nat} {B : Nat}
    (hE : EdgeInc g rk) (hB : ∀ s, rk s ≤ B) (env : ExecEnv) :
    ∀ fuel s d now, B < rk s + fuel → (run g env fuel now s d).status ≠ .running := by
  intro fuel
  induction fuel with
  | zero => intro s d now hlt; exact absurd (hB s) (by omega)
  | succ n ih =>
    intro s d now hlt
    cases hs : step g env now s d with
    | halt st inv rec =>
      rw [run_halt n hs]
      exact (step_halt_inv hs).1
    | goto s' d' dt inv rec =>
      rw [run_goto n hs]
      obtain ⟨node, hl, hsucc, _⟩ := step_goto_inv hs
      have hlt' : rk s < rk s' := hE _ (lookup_mem _ _ _ hl) _ hsucc
      exact ih s' d' (now + dt) (by omega)

/-- A run starting at a Succeed state performs no task invocation. -/
theorem run_succeed_invoked {g : StateGraph} {s : String} (env : ExecEnv)
    (hl : lookupState g s = some .succeed) :
    ∀ fuel now d, (run g env fuel now s d).invoked = [] := by
  intro fuel now d
  cases fuel with
  | zero => rfl
  | succ n =>
    cases hexp : expired env now with
    | true => rw [run_halt n (step_of_expired s d hexp)]; rfl
    | false => rw [run_halt n (step_of_succeed d hexp hl)]; rfl

/-! ## Claim theorems. -/

/-- C4: Choice evaluation is a deterministic function of the rule list
and the Document: it returns the `next` of the first rule, in authored
order, whose predicate matches — so whenever an earlier and a later rule
both match, the earlier rule's `next` is selected regardless of what
follows it — and returns the default when no rule matches. -/
theorem choice_first_match_wins (d : JValue) (pre post rules : List ChoiceRule)
    (r : ChoiceRule) (dflt : Option String) :
    ((∀ r' ∈ pre, evalPred d r'.pred = false) → evalPred d r.pred = true →
      choiceTarget (pre ++ r :: post) dflt d = some r.next) ∧
    ((∀ r' ∈ rules, evalPred d r'.pred = false) → choiceTarget rules dflt d = dflt) := by
  constructor
  · intro hpre hr
    induction pre with
    | nil => simp [choiceTarget, hr]
    | cons p pre' ih =>
      have hp : evalPred d p.pred = false := hpre p (List.mem_cons_self _ _)
      simp only [List.cons_append, choiceTarget, hp, Bool.false_eq_true, if_false]
      exact ih fun r' hr' => hpre r' (List.mem_cons_of_mem _ hr')
  · intro hall
    induction rules with
    | nil => rfl
    | cons p rest ih =>
      have hp : evalPred d p.pred = false := hall p (List.mem_cons_self _ _)
      simp only [choiceTarget, hp, Bool.false_eq_true, if_false]
      exact ih fun r' hr' => hall r' (List.mem_cons_of_mem _ hr')

theorem choice_first_match_wins_witness :
    choiceTarget
      [⟨.isPresent ["a"], "EarlierRule"⟩, ⟨.isPresent ["a"], "LaterRule"⟩]
      (some "DefaultState") (.obj [("a", .null)]) = some "EarlierRule" ∧
    choiceTarget [⟨.isPresent ["a"], "EarlierRule"⟩] (some "DefaultState")
      (.obj []) = some "DefaultState" := by
  constructor
  · exact (choice_first_match_wins (.obj [("a", .null)]) []
      [⟨.isPresent ["a"], "LaterRule"⟩] [] ⟨.isPresent ["a"], "EarlierRule"⟩
      (some "DefaultState")).1 (fun r' hr' => by simp at hr') rfl
  · exact (choice_first_match_wins (.obj []) [] []
      [⟨.isPresent ["a"], "EarlierRule"⟩] ⟨.isPresent ["a"], "EarlierRule"⟩
      (some "DefaultState")).2
      (fun r' hr' => by
        simp only [List.mem_singleton] at hr'
        subst hr'
        rfl)

/-- C6: the reference workflow definition satisfies the StateGraph
structural invariants, so the Definition Loader accepts it without a
DefinitionError: state names are unique, the start name resolves, every
`Next`/`Default`/catch target of every node resolves to a defined
state, and every Choice node has a Default. -/
theorem workflow_definition_valid :
    validateGraph workflow = none ∧
    (workflow.states.map Prod.fst).Nodup ∧
    (lookupState workflow workflow.startAt).isSome = true ∧
    (workflow.states.all fun p =>
      (succStates p.2).all fun t => (lookupState workflow t).isSome) = true ∧
    (workflow.states.all fun p => !choiceNoDefault p.2) = true := by
  refine ⟨rfl, by decide, rfl, rfl, rfl⟩

/-- C7: evaluating a Choice state leaves the Document unchanged: whenever
the interpreter steps a Choice node and advances, the Document after the
transition (and both snapshots of the appended record) equal the
Document before it, and no task is invoked. -/
theorem choice_preserves_document (g : StateGraph) (env : ExecEnv) (now : Nat)
    (s : String) (d : JValue) (rules : List ChoiceRule) (dflt : Option String)
    (s' : String) (d' : JValue) (dt : Nat) (inv : Option (String × Nat))
    (rec : Transition)
    (hl : lookupState g s = some (.choice rules dflt))
    (hstep : step g env now s d = .goto s' d' dt inv rec) :
    d' = d ∧ rec.inputSnapshot = d ∧ rec.outputSnapshot = d ∧ inv = none := by
  cases hexp : expired env now with
  | true => rw [step_of_expired s d hexp] at hstep; exact StepRes.noConfusion hstep
  | false =>
    rw [step_of_choice d hexp hl] at hstep
    cases hct : choiceTarget rules dflt d with
    | some nxt =>
      rw [hct] at hstep
      injection hstep with h1 h2 h3 h4 h5
      exact ⟨h2.symm, by rw [← h5], by rw [← h5], h4.symm⟩
    | none => rw [hct] at hstep; exact StepRes.noConfusion hstep

theorem choice_preserves_document_witness :
    (JValue.obj [("validation_result", .obj [("is_valid", .bool true)])])
        = (JValue.obj [("validation_result", .obj [("is_valid", .bool true)])]) ∧
      (Transition.mk "CheckValidationResult" "RetrieveRelevantContext"
        (.obj [("validation_result", .obj [("is_valid", .bool true)])])
        (.obj [("validation_result", .obj [("is_valid", .bool true)])])
        none 0).inputSnapshot
        = (JValue.obj [("validation_result", .obj [("is_valid", .bool true)])]) ∧
      (Transition.mk "CheckValidationResult" "RetrieveRelevantContext"
        (.obj [("validation_result", .obj [("is_valid", .bool true)])])
        (.obj [("validation_result", .obj [("is_valid", .bool true)])])
        none 0).outputSnapshot
        = (JValue.obj [("validation_result", .obj [("is_valid", .bool true)])]) ∧
      (none : Option (String × Nat)) = none :=
  choice_preserves_document workflow witnessEnv 0 "CheckValidationResult"
    (.obj [("validation_result", .obj [("is_valid", .bool true)])])
    [⟨.booleanEquals ["validation_result", "is_valid"] true, "RetrieveRelevantContext"⟩]
    (some "FailWithValidationError") "RetrieveRelevantContext"
    (.obj [("validation_result", .obj [("is_valid", .bool true)])]) 0 none
    (Transition.mk "CheckValidationResult" "RetrieveRelevantContext"
      (.obj [("validation_result", .obj [("is_valid", .bool true)])])
      (.obj [("validation_result", .obj [("is_valid", .bool true)])])
      none 0)
    rfl rfl

/-- C9: when a matching retry rule applies and attempts-so-far is below
`maxAttempts`, the delay before re-invoking after failed attempt `n` is
`backoffBaseMs * backoffMultiplier ^ (n - 1)` plus at most 20% jitter;
with base 100ms, multiplier 2 and `maxAttempts` 3 against an
always-failing task, the successive delays are 100ms and 200ms (each
within its 20% jitter bound) and the third failing attempt escalates
immediately, with no further retry or delay. -/
theorem retry_backoff_delays (e : TaskError) (o : Nat → Except TaskError JValue)
    (j : Nat → Nat) (fuel : Nat)
    (ho : ∀ a, o a = .error e)
    (hj : ∀ a, 5 * j a ≤ backoffDelay ⟨["*"], 3, 100, 2⟩ a) :
    runRetries o j [⟨["*"], 3, 100, 2⟩] (fuel + 2) 1
      = (.error e, [100 + j 1, 200 + j 2]) ∧
    100 + j 1 ≤ 120 ∧ 200 + j 2 ≤ 240 ∧
    backoffDelay ⟨["*"], 3, 100, 2⟩ 1 = 100 ∧
    backoffDelay ⟨["*"], 3, 100, 2⟩ 2 = 200 := by
  have h1 : backoffDelay ⟨["*"], 3, 100, 2⟩ 1 = 100 := by norm_num [backoffDelay]
  have h2 : backoffDelay ⟨["*"], 3, 100, 2⟩ 2 = 200 := by norm_num [backoffDelay]
  have hf : findRetryRule [⟨["*"], 3, 100, 2⟩] e.code = some ⟨["*"], 3, 100, 2⟩ := by
    simp [findRetryRule, matchesCodes, List.find?]
  refine ⟨?_, ?_, ?_, h1, h2⟩
  · rw [show fuel + 2 = Nat.succ (Nat.succ fuel) from rfl]
    simp [runRetries, ho, hf, backoffDelay]
  · have := hj 1
    rw [h1] at this
    omega
  · have := hj 2
    rw [h2] at this
    omega

theorem retry_backoff_delays_witness :
    runRetries (fun _ => .error ⟨"TaskFailed", "still failing"⟩) (fun _ => 0)
      [⟨["*"], 3, 100, 2⟩] 2 1
      = (.error ⟨"TaskFailed", "still failing"⟩, [100, 200]) ∧
    (100 : Nat) ≤ 120 ∧ (200 : Nat) ≤ 240 ∧
    backoffDelay ⟨["*"], 3, 100, 2⟩ 1 = 100 ∧
    backoffDelay ⟨["*"], 3, 100, 2⟩ 2 = 200 :=
  retry_backoff_delays ⟨"TaskFailed", "still failing"⟩
    (fun _ => .error ⟨"TaskFailed", "still failing"⟩) (fun _ => 0) 0
    (fun _ => rfl) (fun _ => by simp)

/-- C10: no Task state of the reference workflow declares any Retry or
Catch rule, so under the engine's retry/catch policy a TaskError raised
by any task of this graph finds no matching rule and escalates directly
to an execution-level Failed status, the task having been invoked
exactly once. -/
theorem workflow_tasks_unprotected :
    (workflow.states.all fun p => taskRulesEmpty p.2) = true ∧
    ∀ (env : ExecEnv) (fuel now : Nat) (s : String) (d : JValue)
      (res : String) (ps : List (String × ParamSpec)) (rp : List String)
      (nxt : String) (e : TaskError),
      env.deadline = none →
      lookupState workflow s = some (.task res ps rp [] [] nxt) →
      env.oracle res (renderParams d ps) 1 = .error e →
      (run workflow env (fuel + 1) now s d).status = .failed e.code e.message ∧
      (run workflow env (fuel + 1) now s d).invoked = [(s, 1)] := by
  constructor
  · decide
  · intro env fuel now s d res ps rp nxt e hdl hl ho
    have hexp : expired env now = false := by simp [expired, hdl]
    have hrr : runRetries (env.oracle res (renderParams d ps)) env.jitter []
        (retryFuel []) 1 = (.error e, []) := by
      rw [runRetries_nil, ho]
    have hstep := (step_of_task d hexp hl).trans
      (taskStep_uncaught hrr rfl)
    rw [run_halt fuel hstep]
    exact ⟨rfl, rfl⟩

theorem workflow_tasks_unprotected_witness :
    (run workflow failingEnv 1 0 "DocumentProcessing" (.obj [])).status
        = .failed "Lambda.Unknown" "task failed" ∧
    (run workflow failingEnv 1 0 "DocumentProcessing" (.obj [])).invoked
        = [("DocumentProcessing", 1)] :=
  workflow_tasks_unprotected.2 failingEnv 0 0 "DocumentProcessing" (.obj [])
    documentProcessorLambdaArn
    [("operation", .lit (.str "process_documents")), ("documents", .path ["documents"])]
    ["processed_documents"] "RAGDocumentIngestion" ⟨"Lambda.Unknown", "task failed"⟩
    rfl rfl rfl

/-- C5: for the reference workflow graph — whose transition graph is
acyclic — the interpreter visits one node at a time and, whatever the
task oracle does, reaches a verdict within the graph's depth: with fuel
9 the status is never still Running; moreover once the whole-execution
deadline (the deployed state machine's 30 minutes) has expired, the very
next step forces the terminal TimedOut status regardless of the current
node. -/
theorem workflow_run_terminates :
    (∀ (env : ExecEnv) (now : Nat) (s : String) (d : JValue),
      (run workflow env 9 now s d).status ≠ .running) ∧
    (∀ (env : ExecEnv) (t now fuel : Nat) (s : String) (d : JValue),
      env.deadline = some t → t ≤ now →
      (run workflow env (fuel + 1) now s d).status = .timedOut) ∧
    (∀ (env : ExecEnv) (start now fuel : Nat) (s : String) (d : JValue),
      env.deadline = some (start + stateMachineTimeoutMillis) →
      start + stateMachineTimeoutMillis ≤ now →
      (run workflow env (fuel + 1) now s d).status = .timedOut) := by
  have htimeout : ∀ (env : ExecEnv) (t now fuel : Nat) (s : String) (d : JValue),
      env.deadline = some t → t ≤ now →
      (run workflow env (fuel + 1) now s d).status = .timedOut := by
    intro env t now fuel s d hdl hle
    have hexp : expired env now = true := by
      simp [expired, hdl, hle]
    rw [run_halt fuel (step_of_expired s d hexp)]
  refine ⟨?_, htimeout, ?_⟩
  · intro env now s d
    refine run_terminates workflow_edgeInc workflowRank_le env 9 s d now ?_
    omega
  · intro env start now fuel s d hdl hle
    exact htimeout env (start + stateMachineTimeoutMillis) now fuel s d hdl hle

theorem workflow_run_terminates_witness :
    (run workflow deadlineEnv 1 stateMachineTimeoutMillis "GenerateProposal"
      JValue.null).status = .timedOut :=
  workflow_run_terminates.2.2 deadlineEnv 0 stateMachineTimeoutMillis 0
    "GenerateProposal" JValue.null rfl (by decide)

/-- C3: for every initial Document whose `workflow_type` is none of
`document_ingestion`, `fine_tuning` or `proposal_generation` (including
a missing `workflow_type` path), an execution starting at
`DetermineWorkflowType` terminates at the Fail state `FailWorkflow` with
error code `InvalidWorkflowType` without invoking any task. -/
theorem unknown_workflow_type_fails (env : ExecEnv) (fuel now : Nat) (d : JValue)
    (hdl : env.deadline = none)
    (h1 : getPath ["workflow_type"] d ≠ some (.str "document_ingestion"))
    (h2 : getPath ["workflow_type"] d ≠ some (.str "fine_tuning"))
    (h3 : getPath ["workflow_type"] d ≠ some (.str "proposal_generation")) :
    (run workflow env (fuel + 1 + 1) now "DetermineWorkflowType" d).status
      = .failed "InvalidWorkflowType" "Invalid workflow type specified" ∧
    (run workflow env (fuel + 1 + 1) now "DetermineWorkflowType" d).invoked = [] := by
  have hexp : ∀ m, expired env m = false := fun m => by simp [expired, hdl]
  have hl1 : lookupState workflow "DetermineWorkflowType"
      = some (.choice
        [⟨.stringEquals ["workflow_type"] "document_ingestion", "DocumentProcessing"⟩,
         ⟨.stringEquals ["workflow_type"] "fine_tuning", "FineTuningProcess"⟩,
         ⟨.stringEquals ["workflow_type"] "proposal_generation", "ValidateFinancialData"⟩]
        (some "FailWorkflow")) := rfl
  have hct : choiceTarget
      [⟨.stringEquals ["workflow_type"] "document_ingestion", "DocumentProcessing"⟩,
       ⟨.stringEquals ["workflow_type"] "fine_tuning", "FineTuningProcess"⟩,
       ⟨.stringEquals ["workflow_type"] "proposal_generation", "ValidateFinancialData"⟩]
      (some "FailWorkflow") d = some "FailWorkflow" := by
    simp only [choiceTarget, evalPred_stringEquals_of_ne h1,
      evalPred_stringEquals_of_ne h2, evalPred_stringEquals_of_ne h3,
      Bool.false_eq_true, if_false]
  have hstep1 := step_of_choice d (hexp now) hl1
  simp only [hct] at hstep1
  have hl2 : lookupState workflow "FailWorkflow"
      = some (.fail "InvalidWorkflowType" "Invalid workflow type specified") := rfl
  have hstep2 := step_of_fail d (hexp (now + 0)) hl2
  rw [run_goto (fuel + 1) hstep1, run_halt fuel hstep2]
  exact ⟨rfl, rfl⟩

theorem unknown_workflow_type_fails_witness :
    (run workflow witnessEnv 2 0 "DetermineWorkflowType"
      (.obj [("workflow_type", .str "bulk_export")])).status
      = .failed "InvalidWorkflowType" "Invalid workflow type specified" ∧
    (run workflow witnessEnv 2 0 "DetermineWorkflowType"
      (.obj [("workflow_type", .str "bulk_export")])).invoked = [] :=
  unknown_workflow_type_fails witnessEnv 0 0
    (.obj [("workflow_type", .str "bulk_export")]) rfl
    (by intro h; simp [getPath, List.lookup] at h)
    (by intro h; simp [getPath, List.lookup] at h)
    (by intro h; simp [getPath, List.lookup] at h)

/-- C1: in a `proposal_generation` execution, if the
`ValidateFinancialData` task writes a validation result whose `is_valid`
field is false, the engine passes the `CheckValidationResult` Choice
directly to the terminal Fail state `FailWithValidationError` with error
code `ValidationError`, and no generation task
(`RetrieveRelevantContext`, `GenerateProposal`, `RegenerateProposal`,
`FormatFinalDocument`) is ever invoked on that run. -/
theorem proposal_validation_failure (env : ExecEnv) (fuel now : Nat) (d v : JValue)
    (hdl : env.deadline = none)
    (hwt : getPath ["workflow_type"] d = some (.str "proposal_generation"))
    (ho : env.oracle documentProcessorLambdaArn
      (renderParams d validateFinancialDataParameters) 1 = .ok v)
    (hv : getPath ["is_valid"] v = some (.bool false)) :
    (run workflow env (fuel + 1 + 1 + 1 + 1) now "DetermineWorkflowType" d).status
      = .failed "ValidationError" "Financial data validation failed" ∧
    (run workflow env (fuel + 1 + 1 + 1 + 1) now "DetermineWorkflowType" d).invoked
      = [("ValidateFinancialData", 1)] ∧
    ∀ e ∈ (run workflow env (fuel + 1 + 1 + 1 + 1) now "DetermineWorkflowType" d).invoked,
      e.1 ≠ "RetrieveRelevantContext" ∧ e.1 ≠ "GenerateProposal" ∧
      e.1 ≠ "RegenerateProposal" ∧ e.1 ≠ "FormatFinalDocument" := by
  have hexp : ∀ m, expired env m = false := fun m => by simp [expired, hdl]
  have hl1 : lookupState workflow "DetermineWorkflowType"
      = some (.choice
        [⟨.stringEquals ["workflow_type"] "document_ingestion", "DocumentProcessing"⟩,
         ⟨.stringEquals ["workflow_type"] "fine_tuning", "FineTuningProcess"⟩,
         ⟨.stringEquals ["workflow_type"] "proposal_generation", "ValidateFinancialData"⟩]
        (some "FailWorkflow")) := rfl
  have e1 : evalPred d (.stringEquals ["workflow_type"] "document_ingestion") = false := by
    rw [evalPred_stringEquals_of_getPath _ hwt]; rfl
  have e2 : evalPred d (.stringEquals ["workflow_type"] "fine_tuning") = false := by
    rw [evalPred_stringEquals_of_getPath _ hwt]; rfl
  have e3 : evalPred d (.stringEquals ["workflow_type"] "proposal_generation") = true := by
    rw [evalPred_stringEquals_of_getPath _ hwt]; rfl
  have hct1 : choiceTarget
      [⟨.stringEquals ["workflow_type"] "document_ingestion", "DocumentProcessing"⟩,
       ⟨.stringEquals ["workflow_type"] "fine_tuning", "FineTuningProcess"⟩,
       ⟨.stringEquals ["workflow_type"] "proposal_generation", "ValidateFinancialData"⟩]
      (some "FailWorkflow") d = some "ValidateFinancialData" := by
    simp only [choiceTarget, e1, e2, e3, Bool.false_eq_true, if_false, if_true]
  have hstep1 := step_of_choice d (hexp now) hl1
  simp only [hct1] at hstep1
  have hl2 : lookupState workflow "ValidateFinancialData"
      = some (.task documentProcessorLambdaArn validateFinancialDataParameters
        ["validation_result"] [] [] "CheckValidationResult") := rfl
  have hrr : runRetries
      (env.oracle documentProcessorLambdaArn (renderParams d validateFinancialDataParameters))
      env.jitter [] (retryFuel []) 1 = (.ok v, []) := by
    rw [runRetries_nil, ho]
  have hstep2 := (step_of_task d (hexp (now + 0)) hl2).trans (taskStep_ok hrr)
  have hgv : getPath ["validation_result", "is_valid"]
      (setPath ["validation_result"] v d) = some (.bool false) := by
    have h := getPath_setPath ["validation_result"] ["is_valid"] v d
    simp only [List.cons_append, List.nil_append] at h
    rw [h, hv]
  have e4 : evalPred (setPath ["validation_result"] v d)
      (.booleanEquals ["validation_result", "is_valid"] true) = false := by
    rw [evalPred_booleanEquals_of_getPath _ hgv]; rfl
  have hl3 : lookupState workflow "CheckValidationResult"
      = some (.choice
        [⟨.booleanEquals ["validation_result", "is_valid"] true, "RetrieveRelevantContext"⟩]
        (some "FailWithValidationError")) := rfl
  have hct3 : choiceTarget
      [⟨.booleanEquals ["validation_result", "is_valid"] true, "RetrieveRelevantContext"⟩]
      (some "FailWithValidationError") (setPath ["validation_result"] v d)
      = some "FailWithValidationError" := by
    simp only [choiceTarget, e4, Bool.false_eq_true, if_false]
  have hstep3 := step_of_choice (setPath ["validation_result"] v d)
    (hexp (now + 0 + (env.dur documentProcessorLambdaArn
      (renderParams d validateFinancialDataParameters) + sumDelays []))) hl3
  simp only [hct3] at hstep3
  have hl4 : lookupState workflow "FailWithValidationError"
      = some (.fail "ValidationError" "Financial data validation failed") := rfl
  have hstep4 := step_of_fail (setPath ["validation_result"] v d)
    (hexp (now + 0 + (env.dur documentProcessorLambdaArn
      (renderParams d validateFinancialDataParameters) + sumDelays []) + 0)) hl4
  rw [run_goto (fuel + 1 + 1 + 1) hstep1, run_goto (fuel + 1 + 1) hstep2,
    run_goto (fuel + 1) hstep3, run_halt fuel hstep4]
  refine ⟨rfl, rfl, ?_⟩
  intro e he
  simp only [Option.toList_none, Option.toList_some, List.nil_append,
    List.singleton_append, List.append_nil, List.mem_cons, List.not_mem_nil,
    or_false, List.mem_singleton] at he
  subst he
  exact ⟨by decide, by decide, by decide, by decide⟩

theorem proposal_validation_failure_witness :
    (run workflow invalidFinancialsEnv 4 0 "DetermineWorkflowType"
      (.obj [("workflow_type", .str "proposal_generation"),
             ("client_details", .obj []), ("financial_data", .obj [])])).status
      = .failed "ValidationError" "Financial data validation failed" ∧
    (run workflow invalidFinancialsEnv 4 0 "DetermineWorkflowType"
      (.obj [("workflow_type", .str "proposal_generation"),
             ("client_details", .obj []), ("financial_data", .obj [])])).invoked
      = [("ValidateFinancialData", 1)] ∧
    ∀ e ∈ (run workflow invalidFinancialsEnv 4 0 "DetermineWorkflowType"
      (.obj [("workflow_type", .str "proposal_generation"),
             ("client_details", .obj []), ("financial_data", .obj [])])).invoked,
      e.1 ≠ "RetrieveRelevantContext" ∧ e.1 ≠ "GenerateProposal" ∧
      e.1 ≠ "RegenerateProposal" ∧ e.1 ≠ "FormatFinalDocument" :=
  proposal_validation_failure invalidFinancialsEnv 0 0
    (.obj [("workflow_type", .str "proposal_generation"),
           ("client_details", .obj []), ("financial_data", .obj [])])
    (.obj [("is_valid", .bool false)]) rfl rfl rfl rfl

/-- C2: if the proposal written by `GenerateProposal` has `is_valid` not
equal to true, the engine's `CheckProposalValidity` Choice diverts to
the `RegenerateProposal` task exactly once — receiving the failed
attempt as its `previous_attempt` parameter and overwriting the same
`$.proposal_result` path — and then always advances to
`FormatFinalDocument` without re-checking the regenerated output's
validity; moreover, in every execution of the reference workflow,
`RegenerateProposal` is invoked at most once. -/
theorem regenerate_once_then_format (env : ExecEnv) (fuel now : Nat) (d w : JValue)
    (hdl : env.deadline = none)
    (h1 : getPath ["proposal_result", "is_valid"] d ≠ some (.bool true))
    (ho : env.oracle proposalGeneratorLambdaArn
      (renderParams d regenerateProposalParameters) 1 = .ok w) :
    (run workflow env (fuel + 1 + 1) now "CheckProposalValidity" d).invoked
      = ("RegenerateProposal", 1)
        :: (run workflow env fuel
            (now + 0 + (env.dur proposalGeneratorLambdaArn
              (renderParams d regenerateProposalParameters) + sumDelays []))
            "FormatFinalDocument" (setPath ["proposal_result"] w d)).invoked ∧
    (run workflow env (fuel + 1 + 1) now "CheckProposalValidity" d).status
      = (run workflow env fuel
          (now + 0 + (env.dur proposalGeneratorLambdaArn
            (renderParams d regenerateProposalParameters) + sumDelays []))
          "FormatFinalDocument" (setPath ["proposal_result"] w d)).status ∧
    getPath ["previous_attempt"] (renderParams d regenerateProposalParameters)
      = some ((getPath ["proposal_result"] d).getD .null) ∧
    ∀ (fuel' now' : Nat) (s' : String) (d' : JValue),
      countInvocations "RegenerateProposal"
        (run workflow env fuel' now' s' d').invoked ≤ 1 := by
  have hexp : ∀ m, expired env m = false := fun m => by simp [expired, hdl]
  have e1 : evalPred d (.booleanEquals ["proposal_result", "is_valid"] true) = false :=
    evalPred_booleanEquals_of_ne h1
  have hl1 : lookupState workflow "CheckProposalValidity"
      = some (.choice
        [⟨.booleanEquals ["proposal_result", "is_valid"] true, "FormatFinalDocument"⟩]
        (some "RegenerateProposal")) := rfl
  have hct : choiceTarget
      [⟨.booleanEquals ["proposal_result", "is_valid"] true, "FormatFinalDocument"⟩]
      (some "RegenerateProposal") d = some "RegenerateProposal" := by
    simp only [choiceTarget, e1, Bool.false_eq_true, if_false]
  have hstep1 := step_of_choice d (hexp now) hl1
  simp only [hct] at hstep1
  have hl2 : lookupState workflow "RegenerateProposal"
      = some (.task proposalGeneratorLambdaArn regenerateProposalParameters
        ["proposal_result"] [] [] "FormatFinalDocument") := rfl
  have hrr : runRetries
      (env.oracle proposalGeneratorLambdaArn (renderParams d regenerateProposalParameters))
      env.jitter [] (retryFuel []) 1 = (.ok w, []) := by
    rw [runRetries_nil, ho]
  have hstep2 := (step_of_task d (hexp (now + 0)) hl2).trans (taskStep_ok hrr)
  rw [run_goto (fuel + 1) hstep1, run_goto fuel hstep2]
  exact ⟨rfl, rfl, rfl, fun fuel' now' s' d' =>
    workflow_count_le env "RegenerateProposal" fuel' now' s' d'⟩

theorem regenerate_once_then_format_witness :
    (run workflow invalidProposalEnv 3 0 "CheckProposalValidity"
      (.obj [("proposal_result", .obj [("is_valid", .bool false)])])).invoked
      = ("RegenerateProposal", 1)
        :: (run workflow invalidProposalEnv 1 0 "FormatFinalDocument"
            (setPath ["proposal_result"] (.obj [("is_valid", .bool false)])
              (.obj [("proposal_result", .obj [("is_valid", .bool false)])]))).invoked ∧
    getPath ["previous_attempt"]
      (renderParams (.obj [("proposal_result", .obj [("is_valid", .bool false)])])
        regenerateProposalParameters)
      = some (.obj [("is_valid", .bool false)]) ∧
    countInvocations "RegenerateProposal"
      (run workflow invalidProposalEnv 9 0 "DetermineWorkflowType"
        (.obj [("proposal_result", .obj [("is_valid", .bool false)])])).invoked ≤ 1 := by
  have h := regenerate_once_then_format invalidProposalEnv 1 0
    (.obj [("proposal_result", .obj [("is_valid", .bool false)])])
    (.obj [("is_valid", .bool false)]) rfl
    (by intro hc; simp [getPath, List.lookup] at hc) rfl
  exact ⟨h.1, h.2.2.1, h.2.2.2 9 0 "DetermineWorkflowType" _⟩

theorem taskStep_goto_rec {env : ExecEnv} {now : Nat} {s : String} {d : JValue}
    {res : String} {ps : List (String × ParamSpec)} {rp : List String}
    {rr : List RetryRule} {cr : List CatchRule} {nxt : String}
    {s' : String} {d' : JValue} {dt : Nat} {inv : Option (String × Nat)}
    {rec : Transition}
    (h : taskStep env now s d res ps rp rr cr nxt = .goto s' d' dt inv rec) :
    rec.fromState = s ∧ rec.toState = s' ∧ rec.outputSnapshot = d' ∧
      rec.timestamp = now + dt := by
  simp only [taskStep] at h
  rcases hres : runRetries (env.oracle res (renderParams d ps)) env.jitter rr
      (retryFuel rr) 1 with ⟨r1, ds⟩
  rw [hres] at h
  cases r1 with
  | ok out =>
    simp only [] at h
    injection h with h1 h2 h3 h4 h5
    rw [← h5, ← h1, ← h2, ← h3]
    exact ⟨rfl, rfl, rfl, rfl⟩
  | error e =>
    simp only [] at h
    cases hc : findCatchRule cr e.code with
    | some c =>
      rw [hc] at h
      injection h with h1 h2 h3 h4 h5
      rw [← h5, ← h1, ← h2, ← h3]
      exact ⟨rfl, rfl, rfl, rfl⟩
    | none => rw [hc] at h; exact StepRes.noConfusion h

theorem taskStep_halt_error {env : ExecEnv} {now : Nat} {s : String} {d : JValue}
    {res : String} {ps : List (String × ParamSpec)} {rp : List String}
    {rr : List RetryRule} {cr : List CatchRule} {nxt : String}
    {st : Status} {inv : Option (String × Nat)} {rec : Transition}
    (h : taskStep env now s d res ps rp rr cr nxt = .halt st inv rec) :
    rec.error ≠ none := by
  simp only [taskStep] at h
  rcases hres : runRetries (env.oracle res (renderParams d ps)) env.jitter rr
      (retryFuel rr) 1 with ⟨r1, ds⟩
  rw [hres] at h
  cases r1 with
  | ok out => exact StepRes.noConfusion h
  | error e =>
    simp only [] at h
    cases hc : findCatchRule cr e.code with
    | some c => rw [hc] at h; exact StepRes.noConfusion h
    | none =>
      rw [hc] at h
      injection h with h1 h2 h3
      rw [← h3]
      simp

theorem step_goto_rec {g : StateGraph} {env : ExecEnv} {now : Nat} {s : String}
    {d : JValue} {s' : String} {d' : JValue} {dt : Nat}
    {inv : Option (String × Nat)} {rec : Transition}
    (h : step g env now s d = .goto s' d' dt inv rec) :
    rec.fromState = s ∧ rec.toState = s' ∧ rec.outputSnapshot = d' ∧
      rec.timestamp = now + dt := by
  cases hexp : expired env now with
  | true => rw [step_of_expired s d hexp] at h; exact StepRes.noConfusion h
  | false =>
    cases hl : lookupState g s with
    | none => rw [step_of_none d hexp hl] at h; exact StepRes.noConfusion h
    | some node =>
      cases node with
      | succeed => rw [step_of_succeed d hexp hl] at h; exact StepRes.noConfusion h
      | fail err cause => rw [step_of_fail d hexp hl] at h; exact StepRes.noConfusion h
      | choice rules dflt =>
        rw [step_of_choice d hexp hl] at h
        cases hct : choiceTarget rules dflt d with
        | some nxt =>
          rw [hct] at h
          injection h with h1 h2 h3 h4 h5
          rw [← h5, ← h1, ← h2, ← h3]
          exact ⟨rfl, rfl, rfl, (Nat.add_zero now).symm⟩
        | none => rw [hct] at h; exact StepRes.noConfusion h
      | task res ps rp rr cr nxt =>
        rw [step_of_task d hexp hl] at h
        exact taskStep_goto_rec h

theorem step_halt_error_none {g : StateGraph} {env : ExecEnv} {now : Nat}
    {s : String} {d : JValue} {st : Status} {inv : Option (String × Nat)}
    {rec : Transition}
    (h : step g env now s d = .halt st inv rec) (he : rec.error = none) :
    lookupState g s = some .succeed ∧ rec.toState = s ∧
      rec.outputSnapshot = d ∧ inv = none := by
  cases hexp : expired env now with
  | true =>
    rw [step_of_expired s d hexp] at h
    injection h with h1 h2 h3
    rw [← h3] at he
    simp at he
  | false =>
    cases hl : lookupState g s with
    | none =>
      rw [step_of_none d hexp hl] at h
      injection h with h1 h2 h3
      rw [← h3] at he
      simp at he
    | some node =>
      cases node with
      | succeed =>
        rw [step_of_succeed d hexp hl] at h
        injection h with h1 h2 h3
        rw [← h3]
        exact ⟨rfl, rfl, rfl, h2.symm⟩
      | fail err cause =>
        rw [step_of_fail d hexp hl] at h
        injection h with h1 h2 h3
        rw [← h3] at he
        simp at he
      | choice rules dflt =>
        rw [step_of_choice d hexp hl] at h
        cases hct : choiceTarget rules dflt d with
        | some nxt => rw [hct] at h; exact StepRes.noConfusion h
        | none =>
          rw [hct] at h
          injection h with h1 h2 h3
          rw [← h3] at he
          simp at he
      | task res ps rp rr cr nxt =>
        rw [step_of_task d hexp hl] at h
        exact absurd he (taskStep_halt_error h)

/-- C8: record-before-advance makes resumption safe.  Every Transition
record is appended to history before the engine acts on it; hence for
any prefix of a run ending in a durably recorded, error-free record,
replaying from that record's `toState` and Document snapshot (at its
recorded timestamp, with the remaining fuel) reproduces exactly the
remaining task invocations of the original run — the original run's
invocations are a prefix followed by the replay's — and the replay never
re-invokes a Task whose completed Transition record was already
recorded. -/
theorem record_before_advance (env : ExecEnv) :
    ∀ (k fuel now : Nat) (s : String) (d : JValue) (rec : Transition),
      (run workflow env fuel now s d).history.get? k = some rec →
      rec.error = none →
      (∃ pre, (run workflow env fuel now s d).invoked
          = pre ++ (run workflow env (fuel - (k + 1)) rec.timestamp rec.toState
              rec.outputSnapshot).invoked) ∧
      ∀ (j : Nat) (rj : Transition), j ≤ k →
        (run workflow env fuel now s d).history.get? j = some rj →
        ∀ e ∈ (run workflow env (fuel - (k + 1)) rec.timestamp rec.toState
            rec.outputSnapshot).invoked,
          e.1 ≠ rj.fromState := by
  intro k
  induction k with
  | zero =>
    intro fuel now s d rec hget herr
    cases fuel with
    | zero => rw [run_zero] at hget; simp at hget
    | succ n =>
      cases hs : step workflow env now s d with
      | halt st inv rec₀ =>
        rw [run_halt n hs] at hget ⊢
        dsimp only at hget ⊢
        simp only [List.get?_cons_zero, Option.some.injEq] at hget
        subst hget
        obtain ⟨hl, hts, hout, hinv⟩ := step_halt_error_none hs herr
        subst hinv
        constructor
        · refine ⟨[], ?_⟩
          rw [hts, run_succeed_invoked env hl]
          rfl
        · intro j rj hj hgj e he
          rw [hts, run_succeed_invoked env hl] at he
          exact absurd he (List.not_mem_nil e)
      | goto s' d' dt inv rec₀ =>
        rw [run_goto n hs] at hget ⊢
        dsimp only at hget ⊢
        simp only [List.get?_cons_zero, Option.some.injEq] at hget
        subst hget
        obtain ⟨hfrom, hts, hout, htime⟩ := step_goto_rec hs
        obtain ⟨node, hl, hsucc, _⟩ := step_goto_inv hs
        have hclean : n + 1 - (0 + 1) = n := by omega
        rw [hclean, hts, hout, htime]
        constructor
        · exact ⟨inv.toList, rfl⟩
        · intro j rj hj hgj e he
          have hj0 : j = 0 := Nat.le_zero.mp hj
          subst hj0
          simp only [List.get?_cons_zero, Option.some.injEq] at hgj
          subst hgj
          have hr1 := run_invoked_rank workflow_edgeInc env n (now + dt) s' d' e he
          have hr2 : workflowRank s < workflowRank s' :=
            workflow_edgeInc _ (lookup_mem _ _ _ hl) _ hsucc
          rw [hfrom]
          intro hex
          rw [hex] at hr1
          omega
  | succ k ih =>
    intro fuel now s d rec hget herr
    cases fuel with
    | zero => rw [run_zero] at hget; simp at hget
    | succ n =>
      cases hs : step workflow env now s d with
      | halt st inv rec₀ =>
        rw [run_halt n hs] at hget
        dsimp only at hget
        simp only [List.get?_cons_succ, List.get?_nil] at hget
        exact Option.noConfusion hget
      | goto s' d' dt inv rec₀ =>
        rw [run_goto n hs] at hget ⊢
        dsimp only at hget ⊢
        rw [List.get?_cons_succ] at hget
        obtain ⟨⟨pre', hpre'⟩, hdisj⟩ := ih n (now + dt) s' d' rec hget herr
        have hclean : n + 1 - (k + 1 + 1) = n - (k + 1) := by omega
        rw [hclean]
        constructor
        · exact ⟨inv.toList ++ pre', by rw [hpre', List.append_assoc]⟩
        · intro j rj hj hgj e he
          cases j with
          | zero =>
            simp only [List.get?_cons_zero, Option.some.injEq] at hgj
            subst hgj
            obtain ⟨hfrom, hts', hout', htime'⟩ := step_goto_rec hs
            obtain ⟨node, hl, hsucc, _⟩ := step_goto_inv hs
            have hesub : e ∈ (run workflow env n (now + dt) s' d').invoked := by
              rw [hpre']
              exact List.mem_append_right _ he
            have hr1 := run_invoked_rank workflow_edgeInc env n (now + dt) s' d' e hesub
            have hr2 : workflowRank s < workflowRank s' :=
              workflow_edgeInc _ (lookup_mem _ _ _ hl) _ hsucc
            rw [hfrom]
            intro hex
            rw [hex] at hr1
            omega
          | succ j' =>
            rw [List.get?_cons_succ] at hgj
            exact hdisj j' rj (Nat.succ_le_succ_iff.mp hj) hgj e he

theorem record_before_advance_witness :
    ∃ pre, (run workflow witnessEnv 3 0 "FineTuningProcess" (.obj [])).invoked
      = pre ++ (run workflow witnessEnv 2 0 "WorkflowSucceeded"
          (.obj [("fine_tuning_result", .null)])).invoked :=
  (record_before_advance witnessEnv 0 3 0 "FineTuningProcess" (.obj [])
    ⟨"FineTuningProcess", "WorkflowSucceeded", .obj [],
     .obj [("fine_tuning_result", .null)], none, 0⟩ rfl rfl).1
